import Mathlib

/- Shallow embedding of the Clinical AI Assistant repository:
   src/ClinicalAI.py (single-file Streamlit app: auth, CRUD helpers,
   local assistant branch, quiz runner) and src/app.py (extractive-QA
   assistant with online-search fallback).

   SQLite tables become lists of rows; `uuid.uuid4()` and
   `datetime.utcnow()` results are passed in as parameters; the werkzeug
   salted password hash is modelled by an opaque structure whose digest
   is an injective function of salt and password. -/

/-- Model of a werkzeug salted password hash (`generate_password_hash`
produces one): a salt together with a digest.  The pbkdf2 digest is
abstracted into an injective pairing of the salt with an injective
encoding of the password; the stored value is a `Hash`, never the
plaintext string. -/
structure Hash where
  salt : Nat
  digest : Nat
deriving DecidableEq

/-- Injective encoding of a character list into `Nat`, via Cantor pairing. -/
def encChars : List Char → Nat
  | [] => 0
  | c :: cs => Nat.pair c.toNat (encChars cs) + 1

/-- Injective encoding of a string into `Nat`. -/
def strEnc (s : String) : Nat :=
  encChars s.data

/-- Model of `werkzeug.security.generate_password_hash`: a salted
one-way hash of the password. -/
def generate_password_hash (salt : Nat) (password : String) : Hash :=
  ⟨salt, Nat.pair salt (strEnc password)⟩

/-- Model of `werkzeug.security.check_password_hash`: recompute the
digest from the stored salt and the candidate password and compare. -/
def check_password_hash (h : Hash) (password : String) : Bool :=
  h.digest == Nat.pair h.salt (strEnc password)

/-- A credential is a salted one-way hash: it lies in the image of
`generate_password_hash` (as opposed to being a stored plaintext). -/
def isSaltedHash (h : Hash) : Prop :=
  ∃ salt pw, h = generate_password_hash salt pw

/-- Row of the `users` table (ClinicalAI.py `init_db`). -/
structure UserRow where
  id : String
  email : String
  password_hash : Hash
  created_at : String
deriving DecidableEq

/-- One entry of a quiz payload: `{question, options, answer}` where
`answer` is an index into `options` (spec section 6, quiz JSON format). -/
structure QItem where
  question : String
  options : List String
  answer : Int
deriving DecidableEq

/-- Row of the `quizzes` table; the JSON `data` column is kept structured. -/
structure QuizRow where
  id : String
  user_id : String
  title : String
  data : List QItem
  created_at : String
deriving DecidableEq

/-- Row of the `flashcards` table. -/
structure FlashRow where
  id : String
  user_id : String
  front : String
  back : String
  created_at : String
deriving DecidableEq

/-- Row of the `checkins` table (`hours REAL` modelled as `Rat`). -/
structure CheckinRow where
  id : String
  user_id : String
  date : String
  mood : String
  focus : Int
  hours : Rat
  notes : String
  created_at : String
deriving DecidableEq

/-- Row of the `quotes` table. -/
structure QuoteRow where
  id : String
  user_id : String
  quote : String
  author : String
  created_at : String
deriving DecidableEq

/-- Row of the `reminders` table. -/
structure ReminderRow where
  id : String
  user_id : String
  title : String
  remind_at : String
  notes : String
  created_at : String
deriving DecidableEq

/-- Row of the `mnemonics` table. -/
structure MnemonicRow where
  id : String
  user_id : String
  course : String
  topic : String
  name : String
  content : String
  created_at : String
deriving DecidableEq

/-- Row of the `vault_notes` table. -/
structure VaultNoteRow where
  id : String
  user_id : String
  subject : String
  title : String
  content : String
  created_at : String
deriving DecidableEq

/-- The SQLite database of ClinicalAI.py: one list of rows per table,
in insertion order. -/
structure DB where
  users : List UserRow
  quizzes : List QuizRow
  flashcards : List FlashRow
  checkins : List CheckinRow
  quotes : List QuoteRow
  reminders : List ReminderRow
  mnemonics : List MnemonicRow
  vault_notes : List VaultNoteRow
deriving DecidableEq

/-- The freshly initialised database (`init_db` creates empty tables). -/
def initDB : DB :=
  ⟨[], [], [], [], [], [], [], []⟩

/-- ClinicalAI.py `signup`: insert a new user row with a hashed
password; an `sqlite3.IntegrityError` (duplicate UNIQUE email or
duplicate primary key) makes it return `None` with no row inserted.
The generated uuid and timestamp are parameters of the model. -/
def signup (s : DB) (user_id : String) (salt : Nat)
    (email password created_at : String) : Option String × DB :=
  if s.users.any (fun u => u.email == email || u.id == user_id) then
    (none, s)
  else
    (some user_id,
      { s with users :=
          s.users ++ [⟨user_id, email, generate_password_hash salt password, created_at⟩] })

/-- ClinicalAI.py `login`: fetch the first row with the given email;
return its id when `check_password_hash` accepts, else `None`. -/
def login (s : DB) (email password : String) : Option String :=
  match s.users.find? (fun u => u.email == email) with
  | none => none
  | some u => if check_password_hash u.password_hash password then some u.id else none

/-- ClinicalAI.py `insert_quiz`. -/
def insert_quiz (s : DB) (qid user_id title : String) (data : List QItem)
    (created_at : String) : DB :=
  { s with quizzes := s.quizzes ++ [⟨qid, user_id, title, data, created_at⟩] }

/-- ClinicalAI.py `list_quizzes` (`WHERE user_id=?`). -/
def list_quizzes (s : DB) (user_id : String) : List QuizRow :=
  s.quizzes.filter (fun q => q.user_id == user_id)

/-- ClinicalAI.py `delete_quiz` (`DELETE ... WHERE id=? AND user_id=?`);
it returns nothing, so the caller observes the same result whether or
not a matching row existed. -/
def delete_quiz (s : DB) (qid user_id : String) : DB :=
  { s with quizzes := s.quizzes.filter (fun q => !(q.id == qid && q.user_id == user_id)) }

/-- ClinicalAI.py `add_flashcard`. -/
def add_flashcard (s : DB) (fid user_id front back created_at : String) : DB :=
  { s with flashcards := s.flashcards ++ [⟨fid, user_id, front, back, created_at⟩] }

/-- ClinicalAI.py `list_flashcards`. -/
def list_flashcards (s : DB) (user_id : String) : List FlashRow :=
  s.flashcards.filter (fun f => f.user_id == user_id)

/-- ClinicalAI.py `delete_flashcard` (`DELETE ... WHERE id=? AND user_id=?`). -/
def delete_flashcard (s : DB) (fid user_id : String) : DB :=
  { s with flashcards := s.flashcards.filter (fun f => !(f.id == fid && f.user_id == user_id)) }

/-- ClinicalAI.py `add_checkin`. -/
def add_checkin (s : DB) (cid user_id date mood : String) (focus : Int)
    (hours : Rat) (notes created_at : String) : DB :=
  { s with checkins := s.checkins ++ [⟨cid, user_id, date, mood, focus, hours, notes, created_at⟩] }

/-- Byte-wise/codepoint-wise lexicographic `≤` on character lists,
modelling the SQLite BINARY text collation used by `ORDER BY date ASC`. -/
def charsLe : List Char → List Char → Bool
  | [], _ => true
  | _ :: _, [] => false
  | a :: as, b :: bs =>
      if a.toNat < b.toNat then true
      else if b.toNat < a.toNat then false
      else charsLe as bs

/-- Lexicographic `≤` on strings (SQLite text comparison). -/
def strLe (s t : String) : Bool :=
  charsLe s.data t.data

/-- Comparison of check-in rows by their `date` column. -/
def dateLe (a b : CheckinRow) : Prop :=
  strLe a.date b.date = true

instance : DecidableRel dateLe := fun a b =>
  inferInstanceAs (Decidable (strLe a.date b.date = true))

/-- ClinicalAI.py `list_checkins` (`WHERE user_id=? ORDER BY date ASC`):
the user's rows, sorted ascending by date. -/
def list_checkins (s : DB) (user_id : String) : List CheckinRow :=
  List.insertionSort dateLe (s.checkins.filter (fun c => c.user_id == user_id))

/-- ClinicalAI.py `add_quote`. -/
def add_quote (s : DB) (qid user_id quote author created_at : String) : DB :=
  { s with quotes := s.quotes ++ [⟨qid, user_id, quote, author, created_at⟩] }

/-- ClinicalAI.py `add_reminder`. -/
def add_reminder (s : DB) (rid user_id title remind_at notes created_at : String) : DB :=
  { s with reminders := s.reminders ++ [⟨rid, user_id, title, remind_at, notes, created_at⟩] }

/-- ClinicalAI.py `add_mnemonic`: a plain insert, with no validation of
the `course` value. -/
def add_mnemonic (s : DB) (mid user_id course topic name content created_at : String) : DB :=
  { s with mnemonics := s.mnemonics ++ [⟨mid, user_id, course, topic, name, content, created_at⟩] }

/-- ClinicalAI.py `list_mnemonics`. -/
def list_mnemonics (s : DB) (user_id : String) : List MnemonicRow :=
  s.mnemonics.filter (fun m => m.user_id == user_id)

/-- ClinicalAI.py `SUBJECTS`: the fixed eight-element subject enumeration. -/
def SUBJECTS : List String :=
  ["Pharmacology", "Microbiology", "Hematology", "Pathology", "Forensic Medicine",
   "Obstetrics and Gynecology", "Pediatrics", "Community and Public Medicine"]

/-- ClinicalAI.py `add_vault_note`: raises `ValueError` for a subject
outside `SUBJECTS` (modelled as `Except.error`, leaving the store
untouched), otherwise inserts the row. -/
def add_vault_note (s : DB) (vid user_id subject title content created_at : String) :
    Except String DB :=
  if subject ∈ SUBJECTS then
    Except.ok { s with vault_notes :=
      s.vault_notes ++ [⟨vid, user_id, subject, title, content, created_at⟩] }
  else
    Except.error "Unknown subject"

/-- ClinicalAI.py `list_vault_notes(user_id, subject=None)`: Python
tests `if subject:`, so both `None` and the falsy empty string skip the
subject filter. -/
def list_vault_notes (s : DB) (user_id : String) (subject : Option String) :
    List VaultNoteRow :=
  match subject with
  | some subj =>
      if subj = "" then s.vault_notes.filter (fun n => n.user_id == user_id)
      else s.vault_notes.filter (fun n => n.user_id == user_id && n.subject == subj)
  | none => s.vault_notes.filter (fun n => n.user_id == user_id)

/-- `takesLead n h` holds when `n` is an initial segment of `h`
(helper for the Python substring test). -/
def takesLead : List Char → List Char → Bool
  | [], _ => true
  | _ :: _, [] => false
  | a :: as, b :: bs => a == b && takesLead as bs

/-- `occursIn n h`: `n` occurs contiguously inside `h`; models the
Python `n in h` substring test. -/
def occursIn (n : List Char) : List Char → Bool
  | [] => n.isEmpty
  | c :: rest => takesLead n (c :: rest) || occursIn n rest

/-- Python `needle in hay` on strings. -/
def strContains (needle hay : String) : Bool :=
  occursIn needle.data hay.data

/-- Python `str.lower()` (modelled per character). -/
def pyLower (s : String) : String :=
  ⟨s.data.map Char.toLower⟩

/-- Python `s[:n]` on a string. -/
def pySlice (s : String) (n : Nat) : String :=
  ⟨s.data.take n⟩

/-- The match test of the assistant branch in ClinicalAI.py:
`user_input.lower() in (n['title']+n['content']).lower()`. -/
def noteHit (user_input : String) (n : VaultNoteRow) : Bool :=
  strContains (pyLower user_input) (pyLower (n.title ++ n.content))

/-- The echo fallback reply built by the assistant branch of
ClinicalAI.py when no vault note matches. -/
def echoReply (user_input : String) : String :=
  "I don\x27t have external model access. I can: 1) search your notes (done), or 2) open external ChatGPT/Gemini for deeper answers.\n\nEcho:\n" ++ user_input

/-- The `Send to Assistant` branch of ClinicalAI.py: search the caller's
vault notes for a case-insensitive substring match; join the formatted
hits, else fall back to the echo reply.  `user_id` is `none` when no
one is signed in (`if st.session_state.user_id:` is falsy). -/
def assistant_reply (s : DB) (user_id : Option String) (user_input : String) : String :=
  let notes := match user_id with
    | some uid => list_vault_notes s uid none
    | none => []
  let results := notes.filterMap (fun n =>
    if noteHit user_input n then
      some ("Found in " ++ n.subject ++ ": " ++ n.title ++ "\n" ++ pySlice n.content 400)
    else none)
  if results.isEmpty then echoReply user_input
  else String.intercalate "\n\n---\n\n" results

/-- Python truthiness of an optional string (`None` and `""` are falsy). -/
def pyTruthy : Option String → Bool
  | none => false
  | some s => !(s == "")

/-- app.py `get_answer`: try the local extractive-QA answer, then the
online-search snippet, else a fixed apology message.  The two sub-calls
(`ask_ai`, `search_online`) wrap external engines that are out of scope,
so their results are parameters of the model; both return `None` on
failure.  The function is total: it never raises. -/
def get_answer (ask_ai_result search_online_result : Option String)
    (_question : String) : String :=
  if pyTruthy ask_ai_result then
    "🧠 Local AI answer:\n" ++ ask_ai_result.getD ""
  else if pyTruthy search_online_result then
    "🌐 Online search answer:\n" ++ search_online_result.getD ""
  else
    "❌ Sorry, I couldn\x27t find an answer."

/-- A value held in Streamlit session state for a quiz question: the
`Submit answers` loop distinguishes `isinstance(sel, int)` from the
string case (`st.radio` stores the selected option string). -/
inductive Sel where
  | int (n : Int)
  | str (s : String)
deriving DecidableEq

/-- The `Submit answers` scoring loop of the Quizzes branch in
ClinicalAI.py, transcribed faithfully: for each question index `j` it
reads the stored selection; an `int` selection is compared with
`itm['answer']`; otherwise it evaluates `item.get('options').index(sel)`
where `item` is the stale loop variable left over from the display
loop — i.e. the LAST question of the quiz — catching the lookup
exception as no point.  A missing selection (`None`) also lands in the
exception arm. -/
def quiz_score (data : List QItem) (sels : List (Option Sel)) : Nat :=
  let lastOpt := data.getLast?
  ((List.range data.length).map (fun j =>
    let itm := data.getD j ⟨"", [], 0⟩
    match sels.getD j none with
    | some (Sel.int n) => if n == itm.answer then 1 else 0
    | some (Sel.str sstr) =>
        match lastOpt with
        | some lastItm =>
            match List.indexOf? sstr lastItm.options with
            | some i => if (Int.ofNat i) == itm.answer then 1 else 0
            | none => 0
        | none => 0
    | none => 0)).sum

/-- Modelled from the spec: the credential service's verification and
reset tokens (spec section 4.1) are absent from src/ (no draft under
src/ implements them); per the spec they are single-use and invalidated
on consumption.  The store maps each outstanding token to its user, and
keys each user id to its current password hash. -/
structure CredDB where
  verif_tokens : List (String × String)
  reset_tokens : List (String × String)
  user_hashes : List (String × Hash)
deriving DecidableEq

/-- Modelled from the spec: `consumeVerificationToken(Token) ->
UserId | NotFound`; a found token is invalidated (removed) on
consumption. -/
def consumeVerificationToken (s : CredDB) (t : String) :
    Except String (String × CredDB) :=
  match s.verif_tokens.find? (fun p => p.1 == t) with
  | some p =>
      Except.ok (p.2, { s with verif_tokens := s.verif_tokens.filter (fun q => !(q.1 == t)) })
  | none => Except.error "NotFound"

/-- Modelled from the spec: `resetPassword(Token, newPassword) ->
UserId | NotFound`; a found reset token is invalidated on consumption
and the user's stored hash is replaced by a fresh salted hash. -/
def resetPassword (s : CredDB) (t : String) (newPassword : String) (salt : Nat) :
    Except String (String × CredDB) :=
  match s.reset_tokens.find? (fun p => p.1 == t) with
  | some p =>
      Except.ok (p.2,
        { s with
          reset_tokens := s.reset_tokens.filter (fun q => !(q.1 == t)),
          user_hashes := s.user_hashes.map (fun q =>
            if q.1 == p.2 then (q.1, generate_password_hash salt newPassword) else q) })
  | none => Except.error "NotFound"

/-- One user action against the store, with the nondeterministic inputs
(uuid, salt, timestamp, form fields) made explicit. -/
inductive Op where
  | signup (user_id : String) (salt : Nat) (email password created_at : String)
  | login (email password : String)
  | insert_quiz (qid user_id title : String) (data : List QItem) (created_at : String)
  | delete_quiz (qid user_id : String)
  | add_flashcard (fid user_id front back created_at : String)
  | delete_flashcard (fid user_id : String)
  | add_checkin (cid user_id date mood : String) (focus : Int) (hours : Rat)
      (notes created_at : String)
  | add_quote (qid user_id quote author created_at : String)
  | add_reminder (rid user_id title remind_at notes created_at : String)
  | add_mnemonic (mid user_id course topic name content created_at : String)
  | add_vault_note (vid user_id subject title content created_at : String)

/-- Effect of one operation on the store.  `login` is read-only; a
rejected `signup` or `add_vault_note` leaves the store unchanged. -/
def applyOp (s : DB) : Op → DB
  | .signup uid salt email pw ts => (signup s uid salt email pw ts).2
  | .login _ _ => s
  | .insert_quiz qid uid title data ts => insert_quiz s qid uid title data ts
  | .delete_quiz qid uid => delete_quiz s qid uid
  | .add_flashcard fid uid front back ts => add_flashcard s fid uid front back ts
  | .delete_flashcard fid uid => delete_flashcard s fid uid
  | .add_checkin cid uid date mood focus hours notes ts =>
      add_checkin s cid uid date mood focus hours notes ts
  | .add_quote qid uid quote author ts => add_quote s qid uid quote author ts
  | .add_reminder rid uid title at_ notes ts => add_reminder s rid uid title at_ notes ts
  | .add_mnemonic mid uid course topic name content ts =>
      add_mnemonic s mid uid course topic name content ts
  | .add_vault_note vid uid subject title content ts =>
      match add_vault_note s vid uid subject title content ts with
      | .ok s2 => s2
      | .error _ => s

/-- Run a sequence of operations left to right. -/
def runOps (ops : List Op) (s : DB) : DB :=
  ops.foldl applyOp s

/-! ### Helper lemmas -/

theorem encChars_injective : ∀ {a b : List Char}, encChars a = encChars b → a = b
  | [], [], _ => rfl
  | [], _ :: _, h => absurd h.symm (Nat.succ_ne_zero _)
  | _ :: _, [], h => absurd h (Nat.succ_ne_zero _)
  | a :: as, b :: bs, h => by
    have h2 := Nat.succ_injective h
    have h3 := Nat.pair_eq_pair.mp h2
    have hc : a = b := Char.eq_of_val_eq (UInt32.ext h3.1)
    have hr : as = bs := encChars_injective h3.2
    rw [hc, hr]

theorem strEnc_injective {a b : String} (h : strEnc a = strEnc b) : a = b := by
  cases a
  cases b
  exact congrArg String.mk (encChars_injective h)

theorem check_password_hash_gen (salt : Nat) (pw p : String) :
    check_password_hash (generate_password_hash salt pw) p = (p == pw) := by
  by_cases hp : p = pw
  · subst hp
    simp [check_password_hash, generate_password_hash]
  · have h1 : Nat.pair salt (strEnc pw) ≠ Nat.pair salt (strEnc p) := by
      intro hh
      exact hp (strEnc_injective (Nat.pair_eq_pair.mp hh).2.symm)
    simp [check_password_hash, generate_password_hash, h1, hp]

theorem charsLe_total : ∀ a b : List Char, charsLe a b = true ∨ charsLe b a = true := by
  intro a
  induction a with
  | nil => intro b; left; rfl
  | cons x xs ih =>
    intro b
    cases b with
    | nil => right; rfl
    | cons y ys =>
      by_cases h1 : x.toNat < y.toNat
      · left; simp [charsLe, h1]
      · by_cases h2 : y.toNat < x.toNat
        · right; simp [charsLe, h2]
        · rcases ih ys with h | h
          · left; simp [charsLe, h1, h2, h]
          · right; simp [charsLe, h1, h2, h]

theorem charsLe_trans :
    ∀ a b c : List Char, charsLe a b = true → charsLe b c = true → charsLe a c = true := by
  intro a
  induction a with
  | nil => intro b c _ _; rfl
  | cons x xs ih =>
    intro b c hab hbc
    cases b with
    | nil => simp [charsLe] at hab
    | cons y ys =>
      cases c with
      | nil => simp [charsLe] at hbc
      | cons z zs =>
        simp only [charsLe] at hab hbc ⊢
        rcases Nat.lt_trichotomy x.toNat y.toNat with hxy | hxy | hxy
        · rcases Nat.lt_trichotomy y.toNat z.toNat with hyz | hyz | hyz
          · simp [Nat.lt_trans hxy hyz]
          · simp [hyz ▸ hxy, Nat.lt_asymm (hyz ▸ hxy)]
          · simp [Nat.lt_asymm hyz, hyz] at hbc
        · rcases Nat.lt_trichotomy y.toNat z.toNat with hyz | hyz | hyz
          · simp [hxy ▸ hyz]
          · have hxz : x.toNat = z.toNat := hxy.trans hyz
            have hab2 : charsLe xs ys = true := by
              simpa [Nat.lt_irrefl, hxy] using hab
            have hbc2 : charsLe ys zs = true := by
              simpa [Nat.lt_irrefl, hyz] using hbc
            simp [hxz, Nat.lt_irrefl, ih ys zs hab2 hbc2]
          · simp [Nat.lt_asymm hyz, hyz] at hbc
        · simp [Nat.lt_asymm hxy, hxy] at hab

theorem filter_filter_of_imp {α : Type} (p q : α → Bool) (l : List α)
    (h : ∀ a, q a = true → p a = true) : (l.filter p).filter q = l.filter q := by
  induction l with
  | nil => rfl
  | cons a l ih =>
    by_cases hq : q a = true
    · have hp := h a hq
      simp [List.filter_cons, hp, hq, ih]
    · by_cases hp : p a = true
      · simp [List.filter_cons, hp, hq, ih]
      · simp only [List.filter_cons]
        rw [if_neg (by simpa using hp), if_neg (by simpa using hq), ih]

theorem find?_fst_filter_ne (l : List (String × String)) (t : String) :
    (l.filter (fun q => !(q.1 == t))).find? (fun p => p.1 == t) = none := by
  apply List.find?_eq_none.mpr
  intro a ha
  have h2 := (List.mem_filter.mp ha).2
  simp only [Bool.not_eq_true'] at h2
  simp [h2]

theorem mem_users_applyOp {u : UserRow} {s : DB} (op : Op) (h : u ∈ s.users) :
    u ∈ (applyOp s op).users := by
  cases op with
  | signup uid salt email pw ts =>
    dsimp only [applyOp, signup]
    split
    · exact h
    · exact List.mem_append_left _ h
  | add_vault_note vid uid subject title content ts =>
    dsimp only [applyOp, add_vault_note]
    by_cases hc : subject ∈ SUBJECTS
    · rw [if_pos hc]
      exact h
    · rw [if_neg hc]
      exact h
  | _ => simpa [applyOp, insert_quiz, delete_quiz, add_flashcard, delete_flashcard,
      add_checkin, add_quote, add_reminder, add_mnemonic] using h

theorem mem_users_runOps (ops : List Op) {u : UserRow} {s : DB} (h : u ∈ s.users) :
    u ∈ (runOps ops s).users := by
  induction ops generalizing s with
  | nil => exact h
  | cons op rest ih => exact ih (mem_users_applyOp op h)

theorem pairwise_emails_applyOp {s : DB} (op : Op)
    (h : s.users.Pairwise (fun a b => a.email ≠ b.email)) :
    (applyOp s op).users.Pairwise (fun a b => a.email ≠ b.email) := by
  cases op with
  | signup uid salt email pw ts =>
    dsimp only [applyOp, signup]
    split
    · exact h
    · rename_i hcond
      refine List.pairwise_append.mpr ⟨h, by simp, ?_⟩
      intro a ha b hb
      have hne : ¬(a.email == email || a.id == uid) = true := by
        intro habs
        exact hcond (List.any_eq_true.mpr ⟨a, ha, habs⟩)
      simp only [Bool.or_eq_true, beq_iff_eq, not_or] at hne
      have hb2 : b = ⟨uid, email, generate_password_hash salt pw, ts⟩ := by simpa using hb
      rw [hb2]
      exact hne.1
  | add_vault_note vid uid subject title content ts =>
    dsimp only [applyOp, add_vault_note]
    by_cases hc : subject ∈ SUBJECTS
    · rw [if_pos hc]
      exact h
    · rw [if_neg hc]
      exact h
  | _ => simpa [applyOp, insert_quiz, delete_quiz, add_flashcard, delete_flashcard,
      add_checkin, add_quote, add_reminder, add_mnemonic] using h

theorem pairwise_emails_runOps (ops : List Op) {s : DB}
    (h : s.users.Pairwise (fun a b => a.email ≠ b.email)) :
    (runOps ops s).users.Pairwise (fun a b => a.email ≠ b.email) := by
  induction ops generalizing s with
  | nil => exact h
  | cons op rest ih => exact ih (pairwise_emails_applyOp op h)

theorem find?_user_of_mem {l : List UserRow} {e : String}
    (hnd : l.Pairwise (fun a b => a.email ≠ b.email)) {u : UserRow}
    (hu : u ∈ l) (he : u.email = e) :
    l.find? (fun v => v.email == e) = some u := by
  induction l with
  | nil => cases hu
  | cons v rest ih =>
    rcases List.mem_cons.mp hu with rfl | hmem
    · exact List.find?_cons_of_pos _ (by simp [he])
    · have hne : v.email ≠ u.email := (List.pairwise_cons.mp hnd).1 u hmem
      rw [List.find?_cons_of_neg _ (by simp [he ▸ hne])]
      exact ih (List.pairwise_cons.mp hnd).2 hmem

theorem hashes_from_gen_applyOp {s : DB} (op : Op)
    (h : ∀ u ∈ s.users, ∃ salt pw, u.password_hash = generate_password_hash salt pw) :
    ∀ u ∈ (applyOp s op).users, ∃ salt pw, u.password_hash = generate_password_hash salt pw := by
  cases op with
  | signup uid salt email pw ts =>
    dsimp only [applyOp, signup]
    split
    · exact h
    · intro u hu
      rcases List.mem_append.mp hu with hl | hr
      · exact h u hl
      · have hu2 : u = ⟨uid, email, generate_password_hash salt pw, ts⟩ := by simpa using hr
        exact ⟨salt, pw, by rw [hu2]⟩
  | add_vault_note vid uid subject title content ts =>
    dsimp only [applyOp, add_vault_note]
    by_cases hc : subject ∈ SUBJECTS
    · rw [if_pos hc]
      exact h
    · rw [if_neg hc]
      exact h
  | _ => simpa [applyOp, insert_quiz, delete_quiz, add_flashcard, delete_flashcard,
      add_checkin, add_quote, add_reminder, add_mnemonic] using h

theorem hashes_from_gen_runOps (ops : List Op) {s : DB}
    (h : ∀ u ∈ s.users, ∃ salt pw, u.password_hash = generate_password_hash salt pw) :
    ∀ u ∈ (runOps ops s).users, ∃ salt pw, u.password_hash = generate_password_hash salt pw := by
  induction ops generalizing s with
  | nil => exact h
  | cons op rest ih => exact ih (hashes_from_gen_applyOp op h)

theorem vault_subjects_applyOp {s : DB} (op : Op)
    (h : ∀ n ∈ s.vault_notes, n.subject ∈ SUBJECTS) :
    ∀ n ∈ (applyOp s op).vault_notes, n.subject ∈ SUBJECTS := by
  cases op with
  | signup uid salt email pw ts =>
    dsimp only [applyOp, signup]
    split
    · exact h
    · exact h
  | add_vault_note vid uid subject title content ts =>
    dsimp only [applyOp, add_vault_note]
    by_cases hc : subject ∈ SUBJECTS
    · rw [if_pos hc]
      intro n hn
      rcases List.mem_append.mp hn with hl | hr
      · exact h n hl
      · have hn2 : n = ⟨vid, uid, subject, title, content, ts⟩ := by simpa using hr
        rw [hn2]
        exact hc
    · rw [if_neg hc]
      exact h
  | _ => simpa [applyOp, insert_quiz, delete_quiz, add_flashcard, delete_flashcard,
      add_checkin, add_quote, add_reminder, add_mnemonic] using h

theorem vault_subjects_runOps (ops : List Op) {s : DB}
    (h : ∀ n ∈ s.vault_notes, n.subject ∈ SUBJECTS) :
    ∀ n ∈ (runOps ops s).vault_notes, n.subject ∈ SUBJECTS := by
  induction ops generalizing s with
  | nil => exact h
  | cons op rest ih => exact ih (vault_subjects_applyOp op h)

theorem subjects_ne_empty : ∀ x ∈ SUBJECTS, x ≠ "" := by decide

/-! ### Claim theorems -/

/-- Claim C1: for a registered email, `login(email, P)` returns that
account's user id exactly when `P` is the password supplied at the
account's registration, and the invalid-credentials result `none`
otherwise; this holds in every state reachable by further operations
after the successful `signup` (no reset operation exists in src/, so
the registration password is the account's only credential). -/
theorem C1_authenticate_iff_registration_password
    (pre post : List Op) (uid : String) (salt : Nat) (e pw ts P : String)
    (h : (signup (runOps pre initDB) uid salt e pw ts).1 = some uid) :
    login (runOps post (signup (runOps pre initDB) uid salt e pw ts).2) e P
      = if P = pw then some uid else none := by
  have hnd1 : (runOps pre initDB).users.Pairwise (fun a b => a.email ≠ b.email) :=
    pairwise_emails_runOps pre (by simp [initDB])
  by_cases hc : (runOps pre initDB).users.any (fun u => u.email == e || u.id == uid) = true
  · exfalso
    unfold signup at h
    rw [if_pos hc] at h
    exact Option.noConfusion h
  · have hsig : signup (runOps pre initDB) uid salt e pw ts =
        (some uid,
          { runOps pre initDB with users := (runOps pre initDB).users ++
              [⟨uid, e, generate_password_hash salt pw, ts⟩] }) := by
      unfold signup
      rw [if_neg hc]
    rw [hsig]
    have hmem : (⟨uid, e, generate_password_hash salt pw, ts⟩ : UserRow) ∈
        ({ runOps pre initDB with users := (runOps pre initDB).users ++
            [⟨uid, e, generate_password_hash salt pw, ts⟩] } : DB).users :=
      List.mem_append_right _ (List.mem_singleton.mpr rfl)
    have hnd2 : ({ runOps pre initDB with users := (runOps pre initDB).users ++
        [⟨uid, e, generate_password_hash salt pw, ts⟩] } : DB).users.Pairwise
          (fun a b => a.email ≠ b.email) := by
      refine List.pairwise_append.mpr ⟨hnd1, by simp, ?_⟩
      intro a ha b hb
      have hb2 : b = ⟨uid, e, generate_password_hash salt pw, ts⟩ := by simpa using hb
      have hne : ¬(a.email == e || a.id == uid) = true := fun habs =>
        hc (List.any_eq_true.mpr ⟨a, ha, habs⟩)
      simp only [Bool.or_eq_true, beq_iff_eq, not_or] at hne
      rw [hb2]
      exact hne.1
    have hmem3 := mem_users_runOps post hmem
    have hnd3 := pairwise_emails_runOps post hnd2
    simp only [login, find?_user_of_mem hnd3 hmem3 rfl]
    rw [check_password_hash_gen]
    by_cases hP : P = pw
    · rw [if_pos (by simp [hP]), if_pos hP]
    · rw [if_neg (by simp [hP]), if_neg hP]

theorem C1_witness :
    (signup (runOps [] initDB) "u1" 0 "a@b.c" "pw" "t").1 = some "u1"
    ∧ login (runOps [] (signup (runOps [] initDB) "u1" 0 "a@b.c" "pw" "t").2) "a@b.c" "pw"
        = some "u1"
    ∧ login (runOps [] (signup (runOps [] initDB) "u1" 0 "a@b.c" "pw" "t").2) "a@b.c" "wrong"
        = none := by
  have h1 : (signup (runOps [] initDB) "u1" 0 "a@b.c" "pw" "t").1 = some "u1" := by decide
  refine ⟨h1, ?_, ?_⟩
  · have h2 := C1_authenticate_iff_registration_password [] [] "u1" 0 "a@b.c" "pw" "t" "pw" h1
    simpa using h2
  · have h3 := C1_authenticate_iff_registration_password [] [] "u1" 0 "a@b.c" "pw" "t" "wrong" h1
    simpa using h3

/-- Claim C2: a second `signup` with an already-registered email returns
the duplicate-email result `none` and leaves the store exactly as it
was: no new account row and the first account's stored hash unchanged. -/
theorem C2_duplicate_signup_rejected (s : DB) (u : UserRow) (hu : u ∈ s.users)
    (uid2 : String) (salt2 : Nat) (pw2 ts2 : String) :
    signup s uid2 salt2 u.email pw2 ts2 = (none, s) := by
  unfold signup
  rw [if_pos (List.any_eq_true.mpr ⟨u, hu, by simp⟩)]

theorem C2_witness :
    signup ⟨[⟨"u1", "a@b.c", generate_password_hash 0 "pw", "t"⟩], [], [], [], [], [], [], []⟩
        "u2" 1 "a@b.c" "pw2" "t2"
      = (none, ⟨[⟨"u1", "a@b.c", generate_password_hash 0 "pw", "t"⟩], [], [], [], [], [], [], []⟩) :=
  C2_duplicate_signup_rejected _ ⟨"u1", "a@b.c", generate_password_hash 0 "pw", "t"⟩
    (List.mem_singleton.mpr rfl) "u2" 1 "pw2" "t2"

/-- Claim C3: `delete_quiz`/`delete_flashcard` called by a non-owner
leave every record owned by another user in the store; indeed the
portion of the table not owned by the caller is entirely unchanged, and
the Python functions return `None` in all cases, so the caller learns
nothing about other users' records. -/
theorem C3_delete_foreign_record_noop (s : DB) (rid caller : String) :
    (∀ q ∈ s.quizzes, q.user_id ≠ caller → q ∈ (delete_quiz s rid caller).quizzes)
    ∧ (∀ f ∈ s.flashcards, f.user_id ≠ caller → f ∈ (delete_flashcard s rid caller).flashcards)
    ∧ (delete_quiz s rid caller).quizzes.filter (fun q => !(q.user_id == caller))
        = s.quizzes.filter (fun q => !(q.user_id == caller))
    ∧ (delete_flashcard s rid caller).flashcards.filter (fun f => !(f.user_id == caller))
        = s.flashcards.filter (fun f => !(f.user_id == caller)) := by
  refine ⟨?_, ?_, ?_, ?_⟩
  · intro q hq hne
    simp only [delete_quiz]
    exact List.mem_filter.mpr ⟨hq, by simp [hne]⟩
  · intro f hf hne
    simp only [delete_flashcard]
    exact List.mem_filter.mpr ⟨hf, by simp [hne]⟩
  · simp only [delete_quiz]
    refine filter_filter_of_imp _ _ _ ?_
    intro a ha
    simp only [Bool.not_eq_true', beq_eq_false_iff_ne] at ha
    simp [ha]
  · simp only [delete_flashcard]
    refine filter_filter_of_imp _ _ _ ?_
    intro a ha
    simp only [Bool.not_eq_true', beq_eq_false_iff_ne] at ha
    simp [ha]

theorem C3_witness :
    (⟨"q1", "owner", "T", [], "t"⟩ : QuizRow) ∈
      (delete_quiz ⟨[], [⟨"q1", "owner", "T", [], "t"⟩], [], [], [], [], [], []⟩
        "q1" "intruder").quizzes :=
  (C3_delete_foreign_record_noop
      ⟨[], [⟨"q1", "owner", "T", [], "t"⟩], [], [], [], [], [], []⟩ "q1" "intruder").1
    ⟨"q1", "owner", "T", [], "t"⟩ (List.mem_singleton.mpr rfl) (by decide)

/-- Claim C6: in every store state reachable from the empty store by
register/authenticate (and the other) operations, every credential
persisted in the users table is a salted one-way hash produced by
`generate_password_hash` — never the plaintext password — and `login`
only grants access via `check_password_hash` against that stored hash
(no comparison with a plaintext stored password exists). -/
theorem C6_only_salted_hashes (ops : List Op) :
    (∀ u ∈ (runOps ops initDB).users, isSaltedHash u.password_hash)
    ∧ (∀ e P uid, login (runOps ops initDB) e P = some uid →
        ∃ u ∈ (runOps ops initDB).users,
          u.email = e ∧ check_password_hash u.password_hash P = true) := by
  constructor
  · exact hashes_from_gen_runOps ops (by simp [initDB])
  · intro e P uid hl
    cases hf : (runOps ops initDB).users.find? (fun u => u.email == e) with
    | none =>
      simp only [login, hf] at hl
      exact Option.noConfusion hl
    | some u =>
      simp only [login, hf] at hl
      by_cases hchk : check_password_hash u.password_hash P = true
      · exact ⟨u, List.mem_of_find?_eq_some hf, by simpa using List.find?_some hf, hchk⟩
      · rw [if_neg hchk] at hl
        exact Option.noConfusion hl

theorem C6_witness :
    isSaltedHash (generate_password_hash 0 "pw") :=
  (C6_only_salted_hashes [Op.signup "u1" 0 "a@b.c" "pw" "t"]).1
    ⟨"u1", "a@b.c", generate_password_hash 0 "pw", "t"⟩ (by decide)

/-- Claim C7 counterexample: `add_mnemonic` performs no course
validation, so a reachable state holds a Mnemonic whose course `Other`
(offered by the Mnemonics form itself) is outside the fixed
eight-subject enumeration — refuting the claim for Mnemonic.course. -/
theorem C7_counterexample :
    (runOps [Op.add_mnemonic "m1" "u1" "Other" "Topic" "Name" "Content" "t"] initDB).mnemonics
      = [⟨"m1", "u1", "Other", "Topic", "Name", "Content", "t"⟩]
    ∧ "Other" ∉ SUBJECTS := by
  constructor
  · rfl
  · decide

/-- Claim C7 (amended): in every reachable store state every
VaultNote's subject belongs to the fixed eight-subject enumeration and
`add_vault_note` rejects any value outside it; `add_mnemonic`, however,
performs no validation, so a Mnemonic's course may lie outside the
enumeration. -/
theorem C7_vault_subject_enumeration (ops : List Op) (s : DB)
    (vid uid subj title content ts : String) :
    (∀ n ∈ (runOps ops initDB).vault_notes, n.subject ∈ SUBJECTS)
    ∧ (subj ∉ SUBJECTS →
        add_vault_note s vid uid subj title content ts = Except.error "Unknown subject") := by
  constructor
  · exact vault_subjects_runOps ops (by simp [initDB])
  · intro hs
    unfold add_vault_note
    rw [if_neg hs]

theorem C7_witness :
    "Pharmacology" ∈ SUBJECTS
    ∧ add_vault_note initDB "v1" "u1" "X" "T" "C" "t" = Except.error "Unknown subject" := by
  constructor
  · exact (C7_vault_subject_enumeration
        [Op.add_vault_note "v1" "u1" "Pharmacology" "T" "C" "t"] initDB
        "v1" "u1" "X" "T" "C" "t").1
      ⟨"v1", "u1", "Pharmacology", "T", "C", "t"⟩ (by decide)
  · exact (C7_vault_subject_enumeration [] initDB "v1" "u1" "X" "T" "C" "t").2 (by decide)

/-- Claim C8: for every user and every store state (hence after any
insertion order of check-ins), `list_checkins` returns exactly the
user's check-ins — a permutation of the user-filtered table — sorted
ascending by the `date` column; in particular entries inserted with
dates 2024-01-01, 2024-01-05, 2024-01-03 come back in ascending date
order. -/
theorem C8_checkins_sorted_by_date (s : DB) (u : String) :
    List.Sorted dateLe (list_checkins s u)
    ∧ List.Perm (list_checkins s u) (s.checkins.filter (fun c => c.user_id == u))
    ∧ (list_checkins (runOps
          [Op.add_checkin "c1" "u1" "2024-01-01" "Good" 5 1 "" "t1",
           Op.add_checkin "c2" "u1" "2024-01-05" "Good" 5 1 "" "t2",
           Op.add_checkin "c3" "u1" "2024-01-03" "Good" 5 1 "" "t3"] initDB) "u1").map
        (fun c => c.date) = ["2024-01-01", "2024-01-03", "2024-01-05"] := by
  haveI : IsTotal CheckinRow dateLe := ⟨fun a b => charsLe_total a.date.data b.date.data⟩
  haveI : IsTrans CheckinRow dateLe :=
    ⟨fun a b c hab hbc => charsLe_trans a.date.data b.date.data c.date.data hab hbc⟩
  exact ⟨List.sorted_insertionSort dateLe _, List.perm_insertionSort dateLe _, by rfl⟩

/-- Claim C10: in every reachable store state, `list_vault_notes u
(some subj)` for a subject of the enumeration returns only records
owned by `u` with subject exactly `subj`; `list_vault_notes u none`
returns precisely the union over the enumeration of the per-subject
lists; and every call returns only notes owned by the requesting user,
so no caller (guest included) ever sees another user's notes. -/
theorem C10_list_vault_notes_scoped (ops : List Op) (u subj : String)
    (hs : subj ∈ SUBJECTS) :
    (∀ n ∈ list_vault_notes (runOps ops initDB) u (some subj),
        n.user_id = u ∧ n.subject = subj)
    ∧ (∀ n, n ∈ list_vault_notes (runOps ops initDB) u none ↔
        ∃ t ∈ SUBJECTS, n ∈ list_vault_notes (runOps ops initDB) u (some t))
    ∧ (∀ x, ∀ n ∈ list_vault_notes (runOps ops initDB) u x, n.user_id = u) := by
  have hinv := vault_subjects_runOps ops (s := initDB) (by simp [initDB])
  have hsne : subj ≠ "" := subjects_ne_empty subj hs
  refine ⟨?_, ?_, ?_⟩
  · intro n hn
    simp only [list_vault_notes] at hn
    rw [if_neg hsne] at hn
    have h2 := (List.mem_filter.mp hn).2
    simp only [Bool.and_eq_true, beq_iff_eq] at h2
    exact h2
  · intro n
    constructor
    · intro hn
      simp only [list_vault_notes] at hn
      have hmem := (List.mem_filter.mp hn).1
      have huid : n.user_id = u := by simpa using (List.mem_filter.mp hn).2
      refine ⟨n.subject, hinv n hmem, ?_⟩
      simp only [list_vault_notes]
      rw [if_neg (subjects_ne_empty n.subject (hinv n hmem))]
      exact List.mem_filter.mpr ⟨hmem, by simp [huid]⟩
    · rintro ⟨t, ht, hn⟩
      simp only [list_vault_notes] at hn
      rw [if_neg (subjects_ne_empty t ht)] at hn
      have hmem := (List.mem_filter.mp hn).1
      have h2 := (List.mem_filter.mp hn).2
      simp only [Bool.and_eq_true, beq_iff_eq] at h2
      simp only [list_vault_notes]
      exact List.mem_filter.mpr ⟨hmem, by simp [h2.1]⟩
  · intro x n hn
    cases x with
    | none =>
      simp only [list_vault_notes] at hn
      simpa using (List.mem_filter.mp hn).2
    | some t =>
      simp only [list_vault_notes] at hn
      by_cases h0 : t = ""
      · rw [if_pos h0] at hn
        simpa using (List.mem_filter.mp hn).2
      · rw [if_neg h0] at hn
        have h2 := (List.mem_filter.mp hn).2
        simp only [Bool.and_eq_true, beq_iff_eq] at h2
        exact h2.1

theorem C10_witness :
    (⟨"v1", "u1", "Pharmacology", "T", "C", "t"⟩ : VaultNoteRow).user_id = "u1"
    ∧ (⟨"v1", "u1", "Pharmacology", "T", "C", "t"⟩ : VaultNoteRow).subject = "Pharmacology" :=
  (C10_list_vault_notes_scoped [Op.add_vault_note "v1" "u1" "Pharmacology" "T" "C" "t"]
      "u1" "Pharmacology" (by decide)).1
    ⟨"v1", "u1", "Pharmacology", "T", "C", "t"⟩ (by decide)

/-- Claim C4 counterexample: the claim's sources include app.py's
`get_answer`; with the local QA pass yielding no accepted answer and
the search fallback yielding nothing, it returns the fixed apology
message, which does not even contain the prompt — not a literal echo
of the prompt. -/
theorem C4_counterexample :
    get_answer none none "What is pancreatitis" = "❌ Sorry, I couldn\x27t find an answer."
    ∧ strContains "What is pancreatitis"
        (get_answer none none "What is pancreatitis") = false := by
  exact ⟨rfl, by decide⟩

/-- Claim C4 (amended): the assistant branch of ClinicalAI.py (no
hosted key, no local QA pass) returns the literal echo fallback —
`echoReply`, a fixed message ending in the prompt — whenever no vault
note of the caller matches the prompt; it is a total function, so no
exception is raised.  app.py's `get_answer`, in contrast, falls back to
a fixed apology message that does not echo the prompt. -/
theorem C4_echo_fallback (s : DB) (uid input : String)
    (h : ∀ n ∈ s.vault_notes, n.user_id = uid → noteHit input n = false) :
    assistant_reply s (some uid) input = echoReply input
    ∧ ∀ q : String, get_answer none none q = "❌ Sorry, I couldn\x27t find an answer." := by
  constructor
  · have hlist : (list_vault_notes s uid none).filterMap (fun n =>
        if noteHit input n then
          some ("Found in " ++ n.subject ++ ": " ++ n.title ++ "\n" ++ pySlice n.content 400)
        else none) = [] := by
      apply List.filterMap_eq_nil_iff.mpr
      intro n hn
      simp only [list_vault_notes] at hn
      have hmem := (List.mem_filter.mp hn).1
      have huid : n.user_id = uid := by simpa using (List.mem_filter.mp hn).2
      rw [if_neg (by simp [h n hmem huid])]
    simp only [assistant_reply]
    rw [hlist]
    rfl
  · intro q
    rfl

theorem C4_witness :
    assistant_reply initDB (some "u1") "hello" = echoReply "hello" :=
  (C4_echo_fallback initDB "u1" "hello"
    (fun n hn _ => absurd hn (List.not_mem_nil n))).1

/-- Claim C5: evaluation of the `Submit answers` scoring loop at a
3-question quiz whose submitted option strings match the correct-option
index on exactly the first two questions (count checked in the second
conjunct).  Because the loop looks string selections up in the stale
`item` variable — the last question's options — the reported score is
0, not the 2 the claim requires. -/
theorem C5_quiz_score_stale_item_eval :
    quiz_score
        [⟨"Q1", ["A", "B"], 0⟩, ⟨"Q2", ["C", "D"], 1⟩, ⟨"Q3", ["E", "F"], 0⟩]
        [some (Sel.str "A"), some (Sel.str "D"), some (Sel.str "F")] = 0
    ∧ (List.zip
          ([⟨"Q1", ["A", "B"], 0⟩, ⟨"Q2", ["C", "D"], 1⟩, ⟨"Q3", ["E", "F"], 0⟩] : List QItem)
          [some (Sel.str "A"), some (Sel.str "D"), some (Sel.str "F")]).countP
        (fun p => p.2 == some (Sel.str (p.1.options.getD p.1.answer.toNat ""))) = 2
    ∧ (0 : Nat) ≠ 2 := by
  refine ⟨by decide, by decide, by decide⟩

/-- Claim C9: tokens are single-use.  Once a token is consumed by
`consumeVerificationToken` or by `resetPassword`, a second use of the
same token is rejected with NotFound.  (Both operations are modelled
from the spec; no draft under src/ implements them.) -/
theorem C9_tokens_single_use (s s2 : CredDB) (t uid pw pw2 : String) (salt salt2 : Nat) :
    (consumeVerificationToken s t = Except.ok (uid, s2) →
      consumeVerificationToken s2 t = Except.error "NotFound")
    ∧ (resetPassword s t pw salt = Except.ok (uid, s2) →
      resetPassword s2 t pw2 salt2 = Except.error "NotFound") := by
  constructor
  · intro h
    cases hf : s.verif_tokens.find? (fun p => p.1 == t) with
    | none =>
      simp only [consumeVerificationToken, hf] at h
      exact Except.noConfusion h
    | some p =>
      simp only [consumeVerificationToken, hf, Except.ok.injEq, Prod.mk.injEq] at h
      obtain ⟨huid, hs2⟩ := h
      subst hs2
      simp only [consumeVerificationToken]
      rw [find?_fst_filter_ne]
  · intro h
    cases hf : s.reset_tokens.find? (fun p => p.1 == t) with
    | none =>
      simp only [resetPassword, hf] at h
      exact Except.noConfusion h
    | some p =>
      simp only [resetPassword, hf, Except.ok.injEq, Prod.mk.injEq] at h
      obtain ⟨huid, hs2⟩ := h
      subst hs2
      simp only [resetPassword]
      rw [find?_fst_filter_ne]

theorem C9_witness :
    consumeVerificationToken
        ⟨[], [("rt", "u1")], [("u1", generate_password_hash 0 "pw")]⟩ "vt"
      = Except.error "NotFound" :=
  (C9_tokens_single_use
      ⟨[("vt", "u1")], [("rt", "u1")], [("u1", generate_password_hash 0 "pw")]⟩
      ⟨[], [("rt", "u1")], [("u1", generate_password_hash 0 "pw")]⟩
      "vt" "u1" "x" "y" 0 1).1 (by rfl)
